import Mathlib

/-!
Verification of the multi-repository branch/tag reconciliation engine of the
Opentrons robot-stack release tooling.

The development shallowly embeds the pure decision logic of
`src/automation/go.py`, `src/go.py` and `src/automation/release.py`.
External effects (git subprocesses, the semver library, console rendering)
are modelled explicitly:

* a remote repository is a map from URL to its branch heads;
* a local git mirror is a list of tags, each carrying its name, creation
  time, and the set of branches it is merged into; `git tag -l "<pat>*"
  --merged <br> --sort=-creatordate` is modelled as filter-and-sort over
  that list (the configured patterns `v`, `internal@`, `ot3@` contain no
  glob metacharacters, so the glob is a literal name-prefix match);
* the Python `semver` library's `Version.parse` and ordering are modelled
  from the semver 2.0.0 grammar the library implements;
* Python string methods (`split`, `replace`, `lstrip`, `removesuffix`,
  `isdigit`) are modelled character-list by character-list.
-/

-- ------------------------------------------------------------------------
-- Python string-method models (character-list based, so that the kernel
-- can evaluate them)
-- ------------------------------------------------------------------------

/-- Splitter core: splits `cs` at every non-overlapping occurrence of `sep`,
left to right, exactly like Python `str.split(sep)` for a nonempty `sep`.
The first argument is fuel; callers pass `cs.length + 1`, which is enough
because every step consumes at least one character. -/
def splitGo (sep : List Char) : Nat → List Char → List Char → List (List Char)
  | 0, rest, acc => [acc.reverse ++ rest]
  | _ + 1, [], acc => [acc.reverse]
  | n + 1, c :: cs, acc =>
    if sep.isPrefixOf (c :: cs) then
      acc.reverse :: splitGo sep n (List.drop sep.length (c :: cs)) []
    else
      splitGo sep n cs (c :: acc)

/-- Python `s.split(sep)` for nonempty `sep`. -/
def pySplit (s sep : String) : List String :=
  (splitGo sep.data (s.data.length + 1) s.data []).map String.mk

/-- Joins chunks with a separator; `joinL sep (splitGo sep …)` undoes a split. -/
def joinL (sep : List Char) : List (List Char) → List Char
  | [] => []
  | [x] => x
  | x :: y :: xs => x ++ sep ++ joinL sep (y :: xs)

/-- Python `s.replace(old, new)` for nonempty `old`: every non-overlapping
occurrence of `old` is replaced by `new`. -/
def pyReplace (s old new : String) : String :=
  String.mk (joinL new.data (splitGo old.data (s.data.length + 1) s.data []))

/-- Python `s.lstrip(c)` core: drops every leading occurrence of `c`. -/
def pyLstripChar (c : Char) : List Char → List Char
  | [] => []
  | d :: rest => if d == c then pyLstripChar c rest else d :: rest

/-- Python `version.lstrip("v")` as used when deriving the release branch. -/
def lstrip_v (s : String) : String := String.mk (pyLstripChar 'v' s.data)

/-- Python `s.removesuffix(suf)`: drops `suf` once from the end when present. -/
def pyRemoveSuffix (s suf : String) : String :=
  if suf.data.isSuffixOf s.data then
    String.mk (s.data.take (s.data.length - suf.data.length))
  else s

/-- Python `s.isdigit()` restricted to ASCII digits (the only digits that
occur in branch and tag names here): nonempty and all characters digits. -/
def pyIsDigit (s : String) : Bool := !s.data.isEmpty && s.data.all Char.isDigit

/-- Boolean name-prefix test used to model git's literal glob `pat*`. -/
def startsWithL (p s : String) : Bool := p.data.isPrefixOf s.data

/-- Substring-containment core for Python's `in` operator on strings. -/
def hasSub (sub : List Char) : List Char → Bool
  | [] => sub.isEmpty
  | c :: cs => sub.isPrefixOf (c :: cs) || hasSub sub cs

/-- Python `sub in s` for strings. -/
def containsSub (sub s : String) : Bool := hasSub sub.data s.data

/-- Numeric value of a digit string (the strings fed to it are validated
to contain only digits). -/
def digitsToNat (cs : List Char) : Nat :=
  cs.foldl (fun n c => 10 * n + (c.toNat - 48)) 0

-- ------------------------------------------------------------------------
-- Model of the Python `semver` library (semver 2.0.0 grammar)
-- ------------------------------------------------------------------------

/-- A parsed semantic version, as produced by `semver.Version.parse` /
`semver.VersionInfo.parse`: numeric triple plus optional prerelease and
build strings (both nonempty when present, guaranteed by the grammar). -/
structure SemVer where
  major : Nat
  minor : Nat
  patch : Nat
  prerelease : Option String
  build : Option String
deriving DecidableEq, Repr

/-- Parses one numeric component: `0|[1-9][0-9]*` (no leading zeros). -/
def parseNum (t : String) : Option Nat :=
  if !pyIsDigit t then none
  else if t.data.length > 1 && t.data.head? == some '0' then none
  else some (digitsToNat t.data)

/-- Character class of prerelease/build identifiers: `[0-9A-Za-z-]`. -/
def isAlnumHyphen (c : Char) : Bool := c.isAlphanum || c == '-'

/-- A prerelease identifier: nonempty, alphanumeric-or-hyphen characters,
and when purely numeric it must not have a leading zero. -/
def validIdent (s : String) : Bool :=
  !s.data.isEmpty && s.data.all isAlnumHyphen &&
    (if s.data.all Char.isDigit then
      !(s.data.length > 1 && s.data.head? == some '0')
    else true)

/-- The prerelease part: dot-separated valid identifiers. -/
def validPre (s : String) : Bool := (pySplit s ".").all validIdent

/-- The build part: dot-separated nonempty alphanumeric-or-hyphen chunks
(leading zeros allowed). -/
def validBuild (s : String) : Bool :=
  (pySplit s ".").all (fun t => !t.data.isEmpty && t.data.all isAlnumHyphen)

/-- Parses the `major.minor.patch` core of a version. -/
def parseNums (nums : String) (pre bld : Option String) : Option SemVer :=
  match pySplit nums "." with
  | [x, y, z] =>
    match parseNum x, parseNum y, parseNum z with
    | some a, some b, some c => some ⟨a, b, c, pre, bld⟩
    | _, _, _ => none
  | _ => none

/-- Splits off the prerelease part: the first `-` after the numeric core
starts the prerelease (hyphens inside the prerelease are kept). -/
def parseCore (core : String) (bld : Option String) : Option SemVer :=
  match pySplit core "-" with
  | [nums] => parseNums nums none bld
  | nums :: rest =>
    let pre := String.intercalate "-" rest
    if validPre pre then parseNums nums (some pre) bld else none
  | [] => none

/-- Model of `semver.Version.parse` / `semver.VersionInfo.parse`: returns
`none` exactly where the library raises `ValueError`. The build metadata
starts at the first `+`. -/
def parseVersion (s : String) : Option SemVer :=
  match pySplit s "+" with
  | [core] => parseCore core none
  | [core, bld] => if validBuild bld then parseCore core (some bld) else none
  | _ => none

/-- Strict order on prerelease identifiers per semver precedence: numeric
identifiers compare numerically and precede alphanumeric ones;
alphanumeric identifiers compare in ASCII order. -/
def identLtB (x y : String) : Bool :=
  if pyIsDigit x && pyIsDigit y then digitsToNat x.data < digitsToNat y.data
  else if pyIsDigit x then true
  else if pyIsDigit y then false
  else decide (x < y)

/-- Non-strict lexicographic order on prerelease identifier lists; a list
that is a proper prefix of another precedes it. -/
def identsLeB : List String → List String → Bool
  | [], _ => true
  | _ :: _, [] => false
  | x :: xs, y :: ys => if x == y then identsLeB xs ys else identLtB x y

/-- Non-strict precedence on the prerelease component: a version without
prerelease is greater than one with (a release follows its prereleases). -/
def preLe : Option String → Option String → Bool
  | none, none => true
  | some _, none => true
  | none, some _ => false
  | some p, some q => identsLeB (pySplit p ".") (pySplit q ".")

/-- Non-strict semver precedence, as used by sorting with a
`semver.Version` key. Build metadata is ignored, per the semver spec. -/
def SemVer.le (a b : SemVer) : Bool :=
  if a.major < b.major then true
  else if b.major < a.major then false
  else if a.minor < b.minor then true
  else if b.minor < a.minor then false
  else if a.patch < b.patch then true
  else if b.patch < a.patch then false
  else preLe a.prerelease b.prerelease

-- ------------------------------------------------------------------------
-- Model of the git tag store seen by one local mirror
-- ------------------------------------------------------------------------

/-- One git tag of a mirror: its name, its creation time (`creatordate`),
and the branches whose history it is merged into. -/
structure Tag where
  name : String
  ctime : Nat
  branches : List String
deriving DecidableEq, Repr

/-- A local git mirror, reduced to its tag store. -/
structure GitRepo where
  tags : List Tag
deriving DecidableEq, Repr

/-- Order used to model `--sort=-creatordate`: newer (larger) creation
times first. Ties are left in input order (git resolves ties by an
implementation-defined secondary order; no claim depends on it). -/
def tagGe (a b : Tag) : Prop := b.ctime ≤ a.ctime

instance : DecidableRel tagGe := fun a b => Nat.decLe b.ctime a.ctime

instance : IsTotal Tag tagGe := ⟨fun a b => Nat.le_total b.ctime a.ctime⟩

instance : IsTrans Tag tagGe := ⟨fun _ _ _ h1 h2 => Nat.le_trans h2 h1⟩

/-- Model of `git tag -l "<pat>*" [--merged <br>] --sort=-creatordate`:
tags whose name starts with the literal pattern (and, when a branch is
given, which are merged into that branch), newest creation time first. -/
def tags_matching (git : GitRepo) (pat : String) (mb : Option String) : List Tag :=
  List.insertionSort tagGe (git.tags.filter (fun t =>
    startsWithL pat t.name &&
      match mb with
      | some br => t.branches.contains br
      | none => true))

/-- First-match association-list lookup, the model of Python dict access
(every dict built here maps a key to a value determined by the key alone,
so first-match equals last-write). -/
def alistFind {α : Type} (l : List (String × α)) (k : String) : Option α :=
  (l.find? (fun p => p.1 == k)).map (·.2)

-- ------------------------------------------------------------------------
-- Model of src/automation/go.py (parallel variant)
-- ------------------------------------------------------------------------

namespace AutoGo

/-- Embedding of `RepoSpec` of src/automation/go.py lines 20-27. -/
structure RepoSpec where
  name : String
  repo_url : String
  local_path : String
  default_branch : String
  external_tag_pattern : String
  internal_tag_pattern : String
deriving DecidableEq, Repr

/-- The remote side seen through `git ls-remote --heads <url> <ref>`:
each URL resolves to its list of branch heads, or `none` when the remote
is unreachable (the subprocess fails). -/
structure Remote where
  heads : String → Option (List String)

/-- Embedding of `branch_exists` (src/automation/go.py lines 57-63): runs
`ls-remote --heads <url> refs/heads/<name>` and reports whether the
output is nonempty; a failed git command yields `False`. The ls-remote
pattern `refs/heads/<name>` matches exactly the head named `<name>`. -/
def branch_exists (remote : Remote) (repo_url branch_name : String) : Bool :=
  match remote.heads repo_url with
  | some hs => hs.contains branch_name
  | none => false

/-- The release-preparation branch name derived from the base version:
`f"chore_release-{version.lstrip('v')}"`. -/
def chore_branch_name (version : String) : String :=
  "chore_release-" ++ lstrip_v version

/-- Embedding of `RepoSpec.branches_to_sync` (src/automation/go.py lines 29-35). -/
def RepoSpec.branches_to_sync (spec : RepoSpec) (version : String)
    (remote : Remote) : List String :=
  if branch_exists remote spec.repo_url (chore_branch_name version) then
    [spec.default_branch, chore_branch_name version]
  else
    [spec.default_branch]

/-- Embedding of `RepoState` (src/automation/go.py lines 38-41); the two dicts are
modelled as association lists in insertion order. -/
structure RepoState where
  branch_tags : List (String × List (String × List String))
  overall_tags : List (String × Option String)
deriving DecidableEq, Repr

/-- The two tag patterns of a spec, in the order process_repo uses them. -/
def RepoSpec.patterns (spec : RepoSpec) : List String :=
  [spec.external_tag_pattern, spec.internal_tag_pattern]

/-- One branch's entry of `state.branch_tags` (src/automation/go.py lines
93-100): for each pattern, the newest-first matching tag names, capped
with `[:7]`. -/
def branch_tag_entry (git : GitRepo) (spec : RepoSpec) (br : String) :
    List (String × List String) :=
  spec.patterns.map (fun pat =>
    (pat, ((tags_matching git pat (some br)).map (·.name)).take 7))

/-- The `RepoState` built by `process_repo` (src/automation/go.py lines
90-106) once the mirror is synchronized; `branches` is the
`branches_to_sync` result it iterates over. -/
def process_repo_state (spec : RepoSpec) (git : GitRepo)
    (branches : List String) : RepoState where
  branch_tags := branches.map (fun br => (br, branch_tag_entry git spec br))
  overall_tags := spec.patterns.map (fun pat =>
    (pat, ((tags_matching git pat none).map (·.name)).head?))

/-- The compare cell of `print_external_table` / `print_internal_table`
(src/automation/go.py lines 125-138): `None` when the branch has no
matching tag (or a falsy empty tag name), otherwise the base URL with a
`.git` suffix stripped followed by `/compare/<tag>...<branch>`. -/
def compare_cell (repo_url : String) (tags : List String) (branch : String) :
    Option String :=
  match tags.head? with
  | none => none
  | some tag =>
    if tag == "" then none
    else some (pyRemoveSuffix repo_url ".git" ++ "/compare/" ++ tag ++ "..." ++ branch)

/-- The operator-selected release channel. -/
inductive Channel
  | internal
  | external
deriving DecidableEq, Repr

/-- The tag pattern main uses for the selected channel. -/
def RepoSpec.channel_pattern (spec : RepoSpec) : Channel → String
  | .external => spec.external_tag_pattern
  | .internal => spec.internal_tag_pattern

/-- The branch each table row reports: the chore_release branch when the
collected state has it, otherwise the default branch. -/
def chosen_branch (spec : RepoSpec) (st : RepoState) (version : String) : String :=
  if (st.branch_tags.map (·.1)).contains (chore_branch_name version) then
    chore_branch_name version
  else spec.default_branch

/-- The per-repository join of `main` (src/automation/go.py lines 242-251):
each repository's task either returns a `RepoState` or raises; successes
land in the `results` dict keyed by repository name, failures are only
logged. The task outcomes are abstracted as a function. -/
def collect_results (repos : List RepoSpec)
    (outcome : RepoSpec → Except String RepoState) : List (String × RepoState) :=
  repos.filterMap (fun r =>
    match outcome r with
    | .ok st => some (r.name, st)
    | .error _ => none)

/-- The repositories whose task raised, in configuration order. -/
def failed_repos (repos : List RepoSpec)
    (outcome : RepoSpec → Except String RepoState) : List String :=
  repos.filterMap (fun r =>
    match outcome r with
    | .ok _ => none
    | .error _ => some r.name)

/-- One row of the Latest Tags Summary table. -/
structure SummaryRow where
  repo : String
  pat : String
  latest : Option String
  branch : String
deriving DecidableEq, Repr

/-- The summary row main builds for one synced repository
(src/automation/go.py lines 260-276). `st.branch_tags[branch]` raises
`KeyError` when the branch is absent; that is modelled as `none` (no row).
The inner `.get(pattern, [])` defaults to the empty list. -/
def summary_row (spec : RepoSpec) (st : RepoState) (version : String)
    (ch : Channel) : Option SummaryRow :=
  (alistFind st.branch_tags (chosen_branch spec st version)).map (fun m =>
    { repo := spec.name
      pat := spec.channel_pattern ch
      latest := ((alistFind m (spec.channel_pattern ch)).getD []).head?
      branch := chosen_branch spec st version })

/-- All rows of the Latest Tags Summary: repositories missing from
`results` are skipped by the `if not st: continue` guard. -/
def summary_rows (repos : List RepoSpec) (results : List (String × RepoState))
    (version : String) (ch : Channel) : List SummaryRow :=
  repos.filterMap (fun r =>
    (alistFind results r.name).bind (fun st => summary_row r st version ch))

/-- The row of the compare-URL table for one synced repository
(src/automation/go.py lines 120-138 and 149-167). -/
def compare_row (spec : RepoSpec) (st : RepoState) (version : String)
    (ch : Channel) : Option (String × Option String) :=
  (alistFind st.branch_tags (chosen_branch spec st version)).map (fun m =>
    (spec.name,
      compare_cell spec.repo_url ((alistFind m (spec.channel_pattern ch)).getD [])
        (chosen_branch spec st version)))

/-- All rows of the compare-URL table for the selected channel. -/
def compare_rows (repos : List RepoSpec) (results : List (String × RepoState))
    (version : String) (ch : Channel) : List (String × Option String) :=
  repos.filterMap (fun r =>
    (alistFind results r.name).bind (fun st => compare_row r st version ch))

/-- The `(repo, branch, tag)` triples for which main invokes
`show_changes_since_tag` (src/automation/go.py lines 283-306): synced
repositories whose chosen branch has a truthy latest matching tag. -/
def changes_call (spec : RepoSpec) (st : RepoState) (version : String)
    (ch : Channel) : Option (String × String × String) :=
  (alistFind st.branch_tags (chosen_branch spec st version)).bind (fun m =>
    match ((alistFind m (spec.channel_pattern ch)).getD []).head? with
    | none => none
    | some tag =>
      if tag == "" then none
      else some (spec.name, chosen_branch spec st version, tag))

/-- All change-log invocations of one run. -/
def changes_calls (repos : List RepoSpec) (results : List (String × RepoState))
    (version : String) (ch : Channel) : List (String × String × String) :=
  repos.filterMap (fun r =>
    (alistFind results r.name).bind (fun st => changes_call r st version ch))

/-- The commit/log side of a mirror for `show_changes_since_tag`:
`rev-parse <branch>`, `rev-list -n 1 <tag>` and the unbounded line list of
`git log --oneline <tag>..<branch>`. -/
structure LogRepo where
  tip_commit : String → String
  tag_commit : String → String
  log_lines : String → String → List String

/-- What the change summary prints. -/
inductive ChangesOutput
  | noChanges
  | changed (lines : List String)
deriving DecidableEq, Repr

/-- Model of `git log --oneline -n <n> <tag>..<branch>`: at most `n` lines. -/
def git_log_n (r : LogRepo) (n : Nat) (tag branch : String) : List String :=
  (r.log_lines tag branch).take n

/-- Embedding of `show_changes_since_tag` (src/automation/go.py lines 177-188). -/
def show_changes_since_tag (r : LogRepo) (branch tag : String) : ChangesOutput :=
  if r.tip_commit branch == r.tag_commit tag then ChangesOutput.noChanges
  else ChangesOutput.changed (git_log_n r 20 tag branch)

/-- The commit-log lines an output carries (the no-changes notice is a
single styled console message, not a log line). -/
def emitted_lines : ChangesOutput → List String
  | ChangesOutput.noChanges => []
  | ChangesOutput.changed ls => ls

/-- The process exit status as a function of the recorded per-repository
failures. `main` (src/automation/go.py lines 231-306) catches every
per-repository exception at the task join, only logs it, and returns
normally; the script never calls an exit function, so the interpreter
exits with status 0 no matter which repositories failed. -/
def main_exit_code (_failures : List String) : Nat := 0

/-- The four configured repositories (src/automation/go.py lines 195-228). -/
def repos : List RepoSpec :=
  [ { name := "buildroot"
      repo_url := "https://github.com/Opentrons/buildroot.git"
      local_path := "./buildroot"
      default_branch := "opentrons-develop"
      external_tag_pattern := "v"
      internal_tag_pattern := "internal@" },
    { name := "ot3-firmware"
      repo_url := "https://github.com/Opentrons/ot3-firmware.git"
      local_path := "./ot3-firmware"
      default_branch := "main"
      external_tag_pattern := "v"
      internal_tag_pattern := "internal@" },
    { name := "oe-core"
      repo_url := "https://github.com/Opentrons/oe-core.git"
      local_path := "./oe-core"
      default_branch := "main"
      external_tag_pattern := "v"
      internal_tag_pattern := "internal@" },
    { name := "opentrons"
      repo_url := "https://github.com/Opentrons/opentrons.git"
      local_path := "./opentrons"
      default_branch := "edge"
      external_tag_pattern := "v"
      internal_tag_pattern := "ot3@" } ]

end AutoGo

-- ------------------------------------------------------------------------
-- Model of src/go.py (sequential variant)
-- ------------------------------------------------------------------------

namespace SeqGo

/-- Embedding of `RepoSpec` of src/go.py lines 17-24. -/
structure RepoSpec where
  name : String
  repo_url : String
  local_path : String
  primary_branch : String
  want_chore_release : Bool
  tag_patterns : List String
deriving DecidableEq, Repr

/-- The chore_release branch names scraped from `git ls-remote --heads`
output (src/go.py lines 63-66): for each line containing
`refs/heads/chore_release-`, the chunk after the first `refs/heads/`. -/
def chore_branch_names (ls : List String) : List String :=
  ls.filterMap (fun line =>
    if containsSub "refs/heads/chore_release-" line then
      (pySplit line "refs/heads/").get? 1
    else none)

/-- Embedding of `branch.replace("chore_release-", "")`. -/
def chore_suffix (b : String) : String := pyReplace b "chore_release-" ""

/-- The numeric-suffix filter (src/go.py lines 68-70): keeps a branch when
its suffix with dots removed is a nonempty digit string. -/
def numeric_chore_branches (ls : List String) : List String :=
  (chore_branch_names ls).filter (fun b =>
    pyIsDigit (pyReplace (chore_suffix b) "." ""))

/-- The sort key of one candidate branch: `semver.Version.parse` of its
suffix, which raises (modelled as `.error` carrying the suffix) when the
suffix is not a valid `major.minor.patch` version. -/
def parseKeyed (b : String) : Except String (String × SemVer) :=
  match parseVersion (chore_suffix b) with
  | some v => Except.ok (b, v)
  | none => Except.error (chore_suffix b)

/-- The last element of the keyed list after a stable ascending sort by
semver key, i.e. Python `sorted(branches, key=...)[-1]`: the last-listed
branch among those with the greatest key. -/
def pickLatest : List (String × SemVer) → String
  | [] => ""
  | x :: xs => (xs.foldl (fun best c => if SemVer.le best.2 c.2 then c else best) x).1

/-- The sort keys of the whole candidate list, in list order — Python's
`sorted` with a `key=` computes every key first (the decorate step),
raising at the first branch whose suffix `semver.Version.parse` rejects. -/
def keyedList : List String → Except String (List (String × SemVer))
  | [] => Except.ok []
  | b :: rest =>
    match parseKeyed b with
    | Except.error e => Except.error e
    | Except.ok p =>
      match keyedList rest with
      | Except.error e => Except.error e
      | Except.ok ps => Except.ok (p :: ps)

/-- Embedding of `get_latest_chore_release_branch` (src/go.py lines 58-74), as a
function of the `ls-remote --heads` output lines: empty string when no
candidate survives the numeric filter, otherwise the last element of the
stable ascending semver sort of the candidates; a suffix the semver parse
rejects makes the whole call raise (modelled as `.error` carrying that
suffix). -/
def get_latest_chore_release_branch (ls : List String) : Except String String :=
  if (numeric_chore_branches ls).isEmpty then Except.ok ""
  else
    match keyedList (numeric_chore_branches ls) with
    | Except.error e => Except.error e
    | Except.ok keyed => Except.ok (pickLatest keyed)

/-- Embedding of `RepoSpec.branches_to_sync` (src/go.py lines 26-33): the primary
branch, plus the latest chore_release branch when the spec wants one and
the scan finds a (truthy, i.e. nonempty) name. -/
def RepoSpec.branches_to_sync (spec : RepoSpec) (ls : List String) :
    Except String (List String) :=
  if spec.want_chore_release then
    match get_latest_chore_release_branch ls with
    | Except.error e => Except.error e
    | Except.ok chore =>
      Except.ok (if chore == "" then [spec.primary_branch]
                 else [spec.primary_branch, chore])
  else Except.ok [spec.primary_branch]

/-- Embedding of `get_latest_tags` (src/go.py lines 103-114): per pattern the newest
`count` matching tag names on the branch, concatenated, then capped at
`count` overall. -/
def get_latest_tags (git : GitRepo) (branch : String) (patterns : List String)
    (count : Nat) : List String :=
  ((patterns.map (fun pat =>
    ((tags_matching git pat (some branch)).map (·.name)).take count)).flatten).take count

end SeqGo

-- ------------------------------------------------------------------------
-- Model of src/automation/release.py
-- ------------------------------------------------------------------------

namespace Release

/-- One production-manifest entry (the fixed keys `from_production` reads
from each per-version dict: `fullImage`, `system`, `version`,
`releaseNotes`). -/
structure ProdInfo where
  fullImage : String
  system : String
  version : String
  releaseNotes : String
deriving DecidableEq, Repr

/-- Embedding of `RobotRelease` (src/automation/release.py lines 30-36). -/
structure RobotRelease where
  version : String
  full_image : String
  system : String
  version_url : String
  release_notes : String
deriving DecidableEq, Repr

/-- Embedding of `RobotReleasesCollection` (src/automation/release.py lines 54-58). -/
structure RobotReleasesCollection where
  alphas : List RobotRelease
  betas : List RobotRelease
  stables : List RobotRelease
deriving DecidableEq, Repr

/-- The `RobotRelease` built for one entry (lines 64-70). -/
def mkRelease (ver : String) (info : ProdInfo) : RobotRelease :=
  { version := ver
    full_image := info.fullImage
    system := info.system
    version_url := info.version
    release_notes := info.releaseNotes }

/-- Embedding of `vi.prerelease.split(".")[0]`. -/
def preTag (p : String) : String := (pySplit p ".").headD ""

/-- Embedding of `RobotReleasesCollection.from_production` (src/automation/release.py
lines 60-80). The production dict is modelled as an association list in
iteration order; a version string `semver.VersionInfo.parse` rejects makes
the whole call raise (modelled as `.error` carrying that version). -/
def from_production : List (String × ProdInfo) → Except String RobotReleasesCollection
  | [] => Except.ok ⟨[], [], []⟩
  | (ver, info) :: rest =>
    match parseVersion ver with
    | none => Except.error ver
    | some vi =>
      match from_production rest with
      | Except.error e => Except.error e
      | Except.ok coll =>
        match vi.prerelease with
        | some p =>
          if preTag p == "alpha" then
            Except.ok { coll with alphas := mkRelease ver info :: coll.alphas }
          else if preTag p == "beta" then
            Except.ok { coll with betas := mkRelease ver info :: coll.betas }
          else Except.ok coll
        | none => Except.ok { coll with stables := mkRelease ver info :: coll.stables }

end Release

-- ------------------------------------------------------------------------
-- Shared helper lemmas
-- ------------------------------------------------------------------------

/-- Looking up a key in an association list whose value is a function of
the key alone returns that function's value at the key. -/
theorem alistFind_map_self {α : Type} (f : String → α) (l : List String)
    (k : String) (h : k ∈ l) :
    alistFind (l.map (fun b => (b, f b))) k = some (f k) := by
  induction l with
  | nil => cases h
  | cons a rest ih =>
    by_cases hak : a = k
    · subst hak
      simp [alistFind, List.find?_cons]
    · rcases List.mem_cons.mp h with h1 | h2
      · exact absurd h1.symm hak
      · have : (a == k) = false := beq_false_of_ne hak
        simpa [alistFind, List.find?_cons, this] using ih h2

/-- The tag list the model returns for one pattern and branch is sorted by
creation time, newest first (non-strictly: equal creation times stay
adjacent). -/
theorem tags_matching_sorted (git : GitRepo) (pat : String) (mb : Option String) :
    (tags_matching git pat mb).Pairwise (fun a b => b.ctime ≤ a.ctime) :=
  List.sorted_insertionSort tagGe _

/-- Every tag the model returns for a pattern carries that pattern as a
literal name prefix. -/
theorem tags_matching_startsWith (git : GitRepo) (pat : String) (mb : Option String) :
    ∀ t ∈ tags_matching git pat mb, startsWithL pat t.name = true := by
  intro t ht
  unfold tags_matching at ht
  rw [List.mem_insertionSort] at ht
  rw [List.mem_filter] at ht
  simp only [Bool.and_eq_true] at ht
  exact ht.2.1

/-- Stripping a suffix just appended returns the original string. -/
theorem pyRemoveSuffix_append (base suf : String) :
    pyRemoveSuffix (base ++ suf) suf = base := by
  unfold pyRemoveSuffix
  rw [String.data_append]
  have hsuf : suf.data.isSuffixOf (base.data ++ suf.data) = true :=
    List.isSuffixOf_iff_suffix.mpr (List.suffix_append base.data suf.data)
  rw [if_pos hsuf]
  have hlen : (base.data ++ suf.data).length - suf.data.length = base.data.length := by
    rw [List.length_append]
    omega
  rw [hlen, List.take_left]

-- ------------------------------------------------------------------------
-- C9
-- ------------------------------------------------------------------------

/-- C9: for every RepositorySpec whose want_chore_release flag is false,
branches_to_sync returns exactly the one-element list containing the
spec's primary branch. -/
theorem C9_primary_only (spec : SeqGo.RepoSpec) (ls : List String)
    (h : spec.want_chore_release = false) :
    spec.branches_to_sync ls = Except.ok [spec.primary_branch] := by
  unfold SeqGo.RepoSpec.branches_to_sync
  rw [h]
  simp

/-- C9 witness: a concrete spec with the flag off syncs only its primary
branch. -/
theorem C9_witness :
    SeqGo.RepoSpec.branches_to_sync
      { name := "opentrons", repo_url := "https://github.com/Opentrons/opentrons.git",
        local_path := "./opentrons", primary_branch := "edge",
        want_chore_release := false, tag_patterns := ["v", "ot3@"] }
      ["x\trefs/heads/chore_release-8.4.0"] = Except.ok ["edge"] :=
  C9_primary_only _ _ rfl

-- ------------------------------------------------------------------------
-- C5
-- ------------------------------------------------------------------------

/-- C5: when the commit resolved for the tag equals the commit at the
branch tip, the change summary prints the no-changes notice and emits zero
commit-log lines; otherwise it emits at most 20 commit-log lines. -/
theorem C5_change_summary_bounded (r : AutoGo.LogRepo) (branch tag : String) :
    (r.tip_commit branch = r.tag_commit tag →
      AutoGo.show_changes_since_tag r branch tag = AutoGo.ChangesOutput.noChanges ∧
      AutoGo.emitted_lines (AutoGo.show_changes_since_tag r branch tag) = []) ∧
    (r.tip_commit branch ≠ r.tag_commit tag →
      (AutoGo.emitted_lines (AutoGo.show_changes_since_tag r branch tag)).length ≤ 20) := by
  constructor
  · intro h
    simp [AutoGo.show_changes_since_tag, h, AutoGo.emitted_lines]
  · intro h
    have hbeq : (r.tip_commit branch == r.tag_commit tag) = false := beq_false_of_ne h
    unfold AutoGo.show_changes_since_tag
    simp only [hbeq, Bool.false_eq_true, if_false, AutoGo.emitted_lines, AutoGo.git_log_n]
    exact List.length_take_le 20 _

/-- C5 witness: one mirror where tag and tip coincide (no-changes notice,
zero lines) and one with 25 commits between them (20 lines emitted). -/
theorem C5_witness :
    (AutoGo.show_changes_since_tag
        ⟨fun _ => "c0", fun _ => "c0", fun _ _ => []⟩ "main" "v1" =
      AutoGo.ChangesOutput.noChanges ∧
     AutoGo.emitted_lines (AutoGo.show_changes_since_tag
        ⟨fun _ => "c0", fun _ => "c0", fun _ _ => []⟩ "main" "v1") = []) ∧
    (AutoGo.emitted_lines (AutoGo.show_changes_since_tag
        ⟨fun _ => "c1", fun _ => "c2", fun _ _ => List.replicate 25 "line"⟩
        "main" "v1")).length ≤ 20 :=
  ⟨(C5_change_summary_bounded ⟨fun _ => "c0", fun _ => "c0", fun _ _ => []⟩
      "main" "v1").1 rfl,
   (C5_change_summary_bounded ⟨fun _ => "c1", fun _ => "c2",
      fun _ _ => List.replicate 25 "line"⟩ "main" "v1").2 (by decide)⟩

-- ------------------------------------------------------------------------
-- C4
-- ------------------------------------------------------------------------

/-- C4: for a base URL ending in `.git`, a branch and a (nonempty-named)
latest matching tag, the rendered compare link is the base URL without the
`.git` suffix followed by `/compare/<tag>...<branch>`; with no matching
tag, no link is synthesized. -/
theorem C4_compare_link :
    (∀ base tag rest branch, tag ≠ "" →
      AutoGo.compare_cell (base ++ ".git") (tag :: rest) branch =
        some (base ++ "/compare/" ++ tag ++ "..." ++ branch)) ∧
    (∀ url branch, AutoGo.compare_cell url [] branch = none) := by
  constructor
  · intro base tag rest branch htag
    have hbeq : (tag == "") = false := beq_false_of_ne htag
    unfold AutoGo.compare_cell
    simp only [List.head?_cons, hbeq, Bool.false_eq_true, if_false]
    rw [pyRemoveSuffix_append]
  · intro url branch
    rfl

/-- C4 witness: the spec's own example URL, tag and branch render the
exact link, and an empty tag list renders none. -/
theorem C4_witness :
    AutoGo.compare_cell "https://example.com/org/repo.git" ["v1.2.3"] "main" =
      some "https://example.com/org/repo/compare/v1.2.3...main" ∧
    AutoGo.compare_cell "https://example.com/org/repo.git" [] "main" = none :=
  ⟨C4_compare_link.1 "https://example.com/org/repo" "v1.2.3" [] "main" (by decide),
   C4_compare_link.2 "https://example.com/org/repo.git" "main"⟩

-- ------------------------------------------------------------------------
-- C7
-- ------------------------------------------------------------------------

/-- An outcome assignment on which every repository's task raises. -/
def c7_outcome : AutoGo.RepoSpec → Except String AutoGo.RepoState :=
  fun _ => Except.error "fatal: unable to access remote"

/-- C7 counterexample: a run in which repositories fail (the failure
record is nonempty) still exits with status 0, i.e. the exit status does
not reflect per-repository failures as the claim requires. -/
theorem C7_counterexample :
    AutoGo.failed_repos AutoGo.repos c7_outcome =
      ["buildroot", "ot3-firmware", "oe-core", "opentrons"] ∧
    AutoGo.main_exit_code (AutoGo.failed_repos AutoGo.repos c7_outcome) = 0 :=
  ⟨rfl, rfl⟩

/-- C7 amended: a per-repository failure is recorded in the failure log,
but the process exit status is 0 (success) regardless — main catches every
task exception, only logs it, and never sets an exit code. -/
theorem C7_amended (repos : List AutoGo.RepoSpec)
    (outcome : AutoGo.RepoSpec → Except String AutoGo.RepoState)
    (r : AutoGo.RepoSpec) (e : String) (hr : r ∈ repos)
    (he : outcome r = Except.error e) :
    r.name ∈ AutoGo.failed_repos repos outcome ∧
    AutoGo.main_exit_code (AutoGo.failed_repos repos outcome) = 0 := by
  refine ⟨List.mem_filterMap.mpr ⟨r, hr, ?_⟩, rfl⟩
  simp [he]

/-- C7 amended witness: one failing repository among the configured four
is recorded yet the exit status is 0. -/
theorem C7_amended_witness :
    "buildroot" ∈ AutoGo.failed_repos AutoGo.repos c7_outcome ∧
    AutoGo.main_exit_code (AutoGo.failed_repos AutoGo.repos c7_outcome) = 0 :=
  C7_amended AutoGo.repos c7_outcome
    { name := "buildroot"
      repo_url := "https://github.com/Opentrons/buildroot.git"
      local_path := "./buildroot"
      default_branch := "opentrons-develop"
      external_tag_pattern := "v"
      internal_tag_pattern := "internal@" }
    "fatal: unable to access remote" (by decide) rfl

-- ------------------------------------------------------------------------
-- C1
-- ------------------------------------------------------------------------

/-- The derived release-preparation branch name always carries the literal
`chore_release-` prefix, whatever the base version string is. -/
theorem chore_branch_name_startsWith (version : String) :
    startsWithL "chore_release-" (AutoGo.chore_branch_name version) = true := by
  unfold startsWithL AutoGo.chore_branch_name
  rw [String.data_append]
  exact List.isPrefixOf_iff_prefix.mpr (List.prefix_append _ _)

/-- Core of C1 for any spec whose default branch is not itself the derived
chore_release name: the resolved list is exactly
`[default_branch, chore_release-<version>]` when the remote head exists and
exactly `[default_branch]` otherwise; in particular it is primary-first and
duplicate-free. -/
theorem branches_to_sync_spec (spec : AutoGo.RepoSpec) (version : String)
    (remote : AutoGo.Remote)
    (hne : spec.default_branch ≠ AutoGo.chore_branch_name version) :
    (spec.branches_to_sync version remote).head? = some spec.default_branch ∧
    (spec.branches_to_sync version remote).Nodup ∧
    (AutoGo.branch_exists remote spec.repo_url (AutoGo.chore_branch_name version) = true →
      spec.branches_to_sync version remote =
        [spec.default_branch, AutoGo.chore_branch_name version]) ∧
    (AutoGo.branch_exists remote spec.repo_url (AutoGo.chore_branch_name version) = false →
      spec.branches_to_sync version remote = [spec.default_branch]) := by
  unfold AutoGo.RepoSpec.branches_to_sync
  by_cases h : AutoGo.branch_exists remote spec.repo_url (AutoGo.chore_branch_name version) = true
  · simp [h, hne]
  · simp only [Bool.not_eq_true] at h
    simp [h, hne.symm]

/-- C1: for each configured repository, the resolved branch list has the
primary branch first and no duplicates; when a remote head named exactly
like the derived release branch (`chore_release-8.4.1` for base version
`v8.4.1`) exists, the list is exactly the primary branch followed by that
branch, and otherwise it is exactly the one-element primary-branch list. -/
theorem C1_resolved_branches (repo : AutoGo.RepoSpec) (hrepo : repo ∈ AutoGo.repos)
    (version : String) (remote : AutoGo.Remote) :
    (repo.branches_to_sync version remote).head? = some repo.default_branch ∧
    (repo.branches_to_sync version remote).Nodup ∧
    (AutoGo.branch_exists remote repo.repo_url (AutoGo.chore_branch_name version) = true →
      repo.branches_to_sync version remote =
        [repo.default_branch, AutoGo.chore_branch_name version]) ∧
    (AutoGo.branch_exists remote repo.repo_url (AutoGo.chore_branch_name version) = false →
      repo.branches_to_sync version remote = [repo.default_branch]) := by
  refine branches_to_sync_spec repo version remote ?_
  intro heq
  have hpre := chore_branch_name_startsWith version
  rw [← heq] at hpre
  have : repo.default_branch = "opentrons-develop" ∨ repo.default_branch = "main" ∨
      repo.default_branch = "edge" := by
    simp only [AutoGo.repos, List.mem_cons, List.not_mem_nil, or_false] at hrepo
    rcases hrepo with h | h | h | h <;> subst h <;> simp
  rcases this with h | h | h <;> rw [h] at hpre <;> exact absurd hpre (by decide)

/-- A remote that has `chore_release-8.4.1` among its heads. -/
def c1_remote : AutoGo.Remote :=
  ⟨fun _ => some ["opentrons-develop", "chore_release-8.4.1"]⟩

/-- A remote with no release-preparation branch. -/
def c1_remote_bare : AutoGo.Remote := ⟨fun _ => some ["opentrons-develop"]⟩

/-- C1 witness: for the configured buildroot repository and base version
`v8.4.1`, the branch list is primary-first and duplicate-free; against a
remote carrying the `chore_release-8.4.1` head it is exactly
`[opentrons-develop, chore_release-8.4.1]`, and against a remote without
that head it is exactly `[opentrons-develop]`. -/
theorem C1_witness :
    ((AutoGo.RepoSpec.branches_to_sync
        { name := "buildroot"
          repo_url := "https://github.com/Opentrons/buildroot.git"
          local_path := "./buildroot"
          default_branch := "opentrons-develop"
          external_tag_pattern := "v"
          internal_tag_pattern := "internal@" } "v8.4.1" c1_remote).head? =
        some "opentrons-develop" ∧
      (AutoGo.RepoSpec.branches_to_sync
        { name := "buildroot"
          repo_url := "https://github.com/Opentrons/buildroot.git"
          local_path := "./buildroot"
          default_branch := "opentrons-develop"
          external_tag_pattern := "v"
          internal_tag_pattern := "internal@" } "v8.4.1" c1_remote).Nodup ∧
      AutoGo.RepoSpec.branches_to_sync
        { name := "buildroot"
          repo_url := "https://github.com/Opentrons/buildroot.git"
          local_path := "./buildroot"
          default_branch := "opentrons-develop"
          external_tag_pattern := "v"
          internal_tag_pattern := "internal@" } "v8.4.1" c1_remote =
        ["opentrons-develop", AutoGo.chore_branch_name "v8.4.1"] ∧
      AutoGo.RepoSpec.branches_to_sync
        { name := "buildroot"
          repo_url := "https://github.com/Opentrons/buildroot.git"
          local_path := "./buildroot"
          default_branch := "opentrons-develop"
          external_tag_pattern := "v"
          internal_tag_pattern := "internal@" } "v8.4.1" c1_remote_bare =
        ["opentrons-develop"]) :=
  ⟨(C1_resolved_branches _ (by decide) "v8.4.1" c1_remote).1,
   (C1_resolved_branches _ (by decide) "v8.4.1" c1_remote).2.1,
   (C1_resolved_branches _ (by decide) "v8.4.1" c1_remote).2.2.1 (by decide),
   (C1_resolved_branches _ (by decide) "v8.4.1" c1_remote_bare).2.2.2 (by decide)⟩

-- ------------------------------------------------------------------------
-- C3
-- ------------------------------------------------------------------------

/-- C3: in every RepoState the run builds, every synchronized branch has
an entry for every declared tag pattern, holding at most 7 tag names,
newest first. -/
theorem C3_state_complete (spec : AutoGo.RepoSpec) (git : GitRepo)
    (branches : List String) (br pat : String) (hbr : br ∈ branches)
    (hpat : pat ∈ spec.patterns) :
    ∃ entry : List String,
      alistFind (AutoGo.process_repo_state spec git branches).branch_tags br =
        some (AutoGo.branch_tag_entry git spec br) ∧
      alistFind (AutoGo.branch_tag_entry git spec br) pat = some entry ∧
      entry.length ≤ 7 ∧
      ∃ ts : List Tag, entry = ts.map (·.name) ∧
        ts.Pairwise (fun a b => b.ctime ≤ a.ctime) := by
  refine ⟨((tags_matching git pat (some br)).map (·.name)).take 7, ?_, ?_, ?_, ?_⟩
  · exact alistFind_map_self (AutoGo.branch_tag_entry git spec) branches br hbr
  · exact alistFind_map_self
      (fun p => ((tags_matching git p (some br)).map (·.name)).take 7)
      spec.patterns pat hpat
  · exact List.length_take_le 7 _
  · refine ⟨(tags_matching git pat (some br)).take 7, ?_, ?_⟩
    · rw [List.map_take]
    · exact List.Pairwise.sublist (List.take_sublist 7 _)
        (tags_matching_sorted git pat (some br))

/-- A one-tag mirror for the C3 witness: `v1.0.0` merged into main. -/
def c3_git : GitRepo := ⟨[⟨"v1.0.0", 3, ["main"]⟩]⟩

/-- The buildroot spec, used by several witnesses. -/
def buildroot_spec : AutoGo.RepoSpec :=
  { name := "buildroot"
    repo_url := "https://github.com/Opentrons/buildroot.git"
    local_path := "./buildroot"
    default_branch := "opentrons-develop"
    external_tag_pattern := "v"
    internal_tag_pattern := "internal@" }

/-- C3 witness: on a concrete mirror and branch list, the state has an
entry for the `internal@` pattern of the spec, bounded by 7 and sorted. -/
theorem C3_witness :
    ∃ entry : List String,
      alistFind (AutoGo.process_repo_state buildroot_spec c3_git ["main"]).branch_tags
          "main" = some (AutoGo.branch_tag_entry c3_git buildroot_spec "main") ∧
      alistFind (AutoGo.branch_tag_entry c3_git buildroot_spec "main") "internal@" =
        some entry ∧
      entry.length ≤ 7 ∧
      ∃ ts : List Tag, entry = ts.map (·.name) ∧
        ts.Pairwise (fun a b => b.ctime ≤ a.ctime) :=
  C3_state_complete buildroot_spec c3_git ["main"] "main" "internal@"
    (by decide) (by decide)

-- ------------------------------------------------------------------------
-- C2
-- ------------------------------------------------------------------------

/-- A mirror holding two tags created at the same instant, both merged
into main — the situation §4.3 of the spec calls out as a possible tie. -/
def c2_git : GitRepo := ⟨[⟨"va", 5, ["main"]⟩, ⟨"vb", 5, ["main"]⟩]⟩

/-- C2 counterexample: with two matching tags of equal creation time, the
recorded sequence for branch `main` and pattern `v` exists (it is
`[va, vb]`) but is not sorted strictly descending by creation time, since
the two creation times are equal. -/
theorem C2_counterexample :
    alistFind (AutoGo.branch_tag_entry c2_git buildroot_spec "main") "v" =
      some ["va", "vb"] ∧
    ¬ ((tags_matching c2_git "v" (some "main")).take 7).Pairwise
        (fun a b => b.ctime < a.ctime) := by
  constructor
  · rfl
  · decide

/-- C2 amended: the tag sequence recorded for every branch and pattern is
sorted by creation time descending — non-strictly, ties being possible —
and every recorded tag's name begins with the pattern as a literal
prefix. -/
theorem C2_recorded_sorted (spec : AutoGo.RepoSpec) (git : GitRepo)
    (branches : List String) (br pat : String) (hbr : br ∈ branches)
    (hpat : pat ∈ spec.patterns) :
    ∃ ts : List Tag,
      alistFind (AutoGo.process_repo_state spec git branches).branch_tags br =
        some (AutoGo.branch_tag_entry git spec br) ∧
      alistFind (AutoGo.branch_tag_entry git spec br) pat = some (ts.map (·.name)) ∧
      ts.Pairwise (fun a b => b.ctime ≤ a.ctime) ∧
      ∀ t ∈ ts, startsWithL pat t.name = true := by
  refine ⟨(tags_matching git pat (some br)).take 7, ?_, ?_, ?_, ?_⟩
  · exact alistFind_map_self (AutoGo.branch_tag_entry git spec) branches br hbr
  · have h1 := alistFind_map_self
      (fun p => ((tags_matching git p (some br)).map (·.name)).take 7)
      spec.patterns pat hpat
    rw [List.map_take]
    exact h1
  · exact List.Pairwise.sublist (List.take_sublist 7 _)
      (tags_matching_sorted git pat (some br))
  · intro t ht
    exact tags_matching_startsWith git pat (some br) t
      ((List.take_sublist 7 _).subset ht)

/-- C2 amended witness: the tie mirror's recorded sequence for
(`main`, `v`) is non-strictly sorted and `v`-prefixed. -/
theorem C2_witness :
    ∃ ts : List Tag,
      alistFind (AutoGo.process_repo_state buildroot_spec c2_git ["main"]).branch_tags
          "main" = some (AutoGo.branch_tag_entry c2_git buildroot_spec "main") ∧
      alistFind (AutoGo.branch_tag_entry c2_git buildroot_spec "main") "v" =
        some (ts.map (·.name)) ∧
      ts.Pairwise (fun a b => b.ctime ≤ a.ctime) ∧
      ∀ t ∈ ts, startsWithL "v" t.name = true :=
  C2_recorded_sorted buildroot_spec c2_git ["main"] "main" "v" (by decide) (by decide)

-- ------------------------------------------------------------------------
-- C6
-- ------------------------------------------------------------------------

/-- Membership in the aggregated result map: exactly the repositories
whose task returned a state, keyed by name. -/
theorem collect_results_mem (repos : List AutoGo.RepoSpec)
    (outcome : AutoGo.RepoSpec → Except String AutoGo.RepoState)
    (n : String) (st : AutoGo.RepoState) :
    (n, st) ∈ AutoGo.collect_results repos outcome ↔
      ∃ r ∈ repos, r.name = n ∧ outcome r = Except.ok st := by
  unfold AutoGo.collect_results
  rw [List.mem_filterMap]
  constructor
  · rintro ⟨r, hr, hsome⟩
    cases ho : outcome r with
    | error e =>
      simp only [ho] at hsome
      exact Option.noConfusion hsome
    | ok st1 =>
      simp only [ho, Option.some.injEq, Prod.mk.injEq] at hsome
      exact ⟨r, hr, hsome.1, by rw [ho, hsome.2]⟩
  · rintro ⟨r, hr, hname, hok⟩
    exact ⟨r, hr, by rw [hok, hname]⟩

/-- A successfully processed repository is present in the result map under
its own name (given the configured names are distinct). -/
theorem alistFind_collect_of_ok (repos : List AutoGo.RepoSpec)
    (outcome : AutoGo.RepoSpec → Except String AutoGo.RepoState)
    (r : AutoGo.RepoSpec) (st : AutoGo.RepoState)
    (hnd : (repos.map AutoGo.RepoSpec.name).Nodup)
    (hr : r ∈ repos) (hok : outcome r = Except.ok st) :
    alistFind (AutoGo.collect_results repos outcome) r.name = some st := by
  induction repos with
  | nil => cases hr
  | cons a rest ih =>
    rw [List.map_cons, List.nodup_cons] at hnd
    rcases List.mem_cons.mp hr with h1 | h2
    · subst h1
      have hcr : AutoGo.collect_results (r :: rest) outcome =
          (r.name, st) :: AutoGo.collect_results rest outcome := by
        unfold AutoGo.collect_results
        simp only [List.filterMap_cons, hok]
      rw [hcr]
      simp [alistFind, List.find?_cons]
    · have hne : a.name ≠ r.name := by
        intro heq
        exact hnd.1 (heq ▸ List.mem_map_of_mem AutoGo.RepoSpec.name h2)
      have hrec := ih hnd.2 h2
      cases ho : outcome a with
      | error e =>
        have hcr : AutoGo.collect_results (a :: rest) outcome =
            AutoGo.collect_results rest outcome := by
          unfold AutoGo.collect_results
          simp only [List.filterMap_cons, ho]
        rw [hcr]
        exact hrec
      | ok st1 =>
        have hcr : AutoGo.collect_results (a :: rest) outcome =
            (a.name, st1) :: AutoGo.collect_results rest outcome := by
          unfold AutoGo.collect_results
          simp only [List.filterMap_cons, ho]
        rw [hcr]
        simpa [alistFind, List.find?_cons, beq_false_of_ne hne] using hrec

/-- A failed repository is absent from the result map (given distinct
names). -/
theorem alistFind_collect_of_error (repos : List AutoGo.RepoSpec)
    (outcome : AutoGo.RepoSpec → Except String AutoGo.RepoState)
    (r : AutoGo.RepoSpec) (e : String)
    (hnd : (repos.map AutoGo.RepoSpec.name).Nodup)
    (hr : r ∈ repos) (herr : outcome r = Except.error e) :
    alistFind (AutoGo.collect_results repos outcome) r.name = none := by
  unfold alistFind
  rw [Option.map_eq_none', List.find?_eq_none]
  intro p hp
  obtain ⟨r1, hr1, hn1, ho1⟩ :=
    (collect_results_mem repos outcome p.1 p.2).mp hp
  intro hbeq
  have hpn : p.1 = r.name := by simpa using hbeq
  have : r1 = r :=
    List.inj_on_of_nodup_map hnd hr1 hr (by rw [hn1, hpn])
  rw [this, herr] at ho1
  cases ho1

/-- Every summary row belongs to a repository present in the result map. -/
theorem summary_row_recorded (repos : List AutoGo.RepoSpec)
    (results : List (String × AutoGo.RepoState)) (version : String)
    (ch : AutoGo.Channel) (row : AutoGo.SummaryRow)
    (h : row ∈ AutoGo.summary_rows repos results version ch) :
    ∃ st, alistFind results row.repo = some st := by
  unfold AutoGo.summary_rows at h
  rw [List.mem_filterMap] at h
  obtain ⟨r, _, hbind⟩ := h
  rw [Option.bind_eq_some] at hbind
  obtain ⟨st, hfind, hrow⟩ := hbind
  unfold AutoGo.summary_row at hrow
  rw [Option.map_eq_some'] at hrow
  obtain ⟨m, _, hrow2⟩ := hrow
  refine ⟨st, ?_⟩
  rw [← hrow2]
  exact hfind

/-- Every compare-table row belongs to a repository present in the result
map. -/
theorem compare_row_recorded (repos : List AutoGo.RepoSpec)
    (results : List (String × AutoGo.RepoState)) (version : String)
    (ch : AutoGo.Channel) (row : String × Option String)
    (h : row ∈ AutoGo.compare_rows repos results version ch) :
    ∃ st, alistFind results row.1 = some st := by
  unfold AutoGo.compare_rows at h
  rw [List.mem_filterMap] at h
  obtain ⟨r, _, hbind⟩ := h
  rw [Option.bind_eq_some] at hbind
  obtain ⟨st, hfind, hrow⟩ := hbind
  unfold AutoGo.compare_row at hrow
  rw [Option.map_eq_some'] at hrow
  obtain ⟨m, _, hrow2⟩ := hrow
  refine ⟨st, ?_⟩
  rw [← hrow2]
  exact hfind

/-- Every change-log invocation belongs to a repository present in the
result map. -/
theorem changes_call_recorded (repos : List AutoGo.RepoSpec)
    (results : List (String × AutoGo.RepoState)) (version : String)
    (ch : AutoGo.Channel) (c : String × String × String)
    (h : c ∈ AutoGo.changes_calls repos results version ch) :
    ∃ st, alistFind results c.1 = some st := by
  unfold AutoGo.changes_calls at h
  rw [List.mem_filterMap] at h
  obtain ⟨r, _, hbind⟩ := h
  rw [Option.bind_eq_some] at hbind
  obtain ⟨st, hfind, hcall⟩ := hbind
  unfold AutoGo.changes_call at hcall
  rw [Option.bind_eq_some] at hcall
  obtain ⟨m, _, h2⟩ := hcall
  refine ⟨st, ?_⟩
  split at h2
  · exact Option.noConfusion h2
  · split at h2
    · exact Option.noConfusion h2
    · injection h2 with h3
      rw [← h3]
      exact hfind

/-- C6: a git failure in one repository is caught at that repository's
task boundary and recorded; the failed repository is excluded from the
result map and from every downstream summary, compare-link and change-log
row, while every successfully processed repository remains recorded. -/
theorem C6_failure_isolated (repos : List AutoGo.RepoSpec)
    (outcome : AutoGo.RepoSpec → Except String AutoGo.RepoState)
    (r0 : AutoGo.RepoSpec) (e : String) (version : String) (ch : AutoGo.Channel)
    (h0 : r0 ∈ repos) (he : outcome r0 = Except.error e)
    (hnd : (repos.map AutoGo.RepoSpec.name).Nodup) :
    r0.name ∈ AutoGo.failed_repos repos outcome ∧
    alistFind (AutoGo.collect_results repos outcome) r0.name = none ∧
    (∀ row ∈ AutoGo.summary_rows repos (AutoGo.collect_results repos outcome)
        version ch, row.repo ≠ r0.name) ∧
    (∀ row ∈ AutoGo.compare_rows repos (AutoGo.collect_results repos outcome)
        version ch, row.1 ≠ r0.name) ∧
    (∀ c ∈ AutoGo.changes_calls repos (AutoGo.collect_results repos outcome)
        version ch, c.1 ≠ r0.name) ∧
    (∀ r1 ∈ repos, ∀ st, outcome r1 = Except.ok st →
      alistFind (AutoGo.collect_results repos outcome) r1.name = some st) := by
  have hnone := alistFind_collect_of_error repos outcome r0 e hnd h0 he
  refine ⟨?_, hnone, ?_, ?_, ?_, ?_⟩
  · refine List.mem_filterMap.mpr ⟨r0, h0, ?_⟩
    simp [he]
  · intro row hrow heq
    obtain ⟨st, hst⟩ := summary_row_recorded repos _ version ch row hrow
    rw [heq, hnone] at hst
    cases hst
  · intro row hrow heq
    obtain ⟨st, hst⟩ := compare_row_recorded repos _ version ch row hrow
    rw [heq, hnone] at hst
    cases hst
  · intro c hc heq
    obtain ⟨st, hst⟩ := changes_call_recorded repos _ version ch c hc
    rw [heq, hnone] at hst
    cases hst
  · intro r1 hr1 st hok
    exact alistFind_collect_of_ok repos outcome r1 st hnd hr1 hok

/-- A second configured repository for the C6 witness run. -/
def opentrons_spec : AutoGo.RepoSpec :=
  { name := "opentrons"
    repo_url := "https://github.com/Opentrons/opentrons.git"
    local_path := "./opentrons"
    default_branch := "edge"
    external_tag_pattern := "v"
    internal_tag_pattern := "ot3@" }

/-- The state the surviving repository's task returns in the C6 witness. -/
def c6_state : AutoGo.RepoState :=
  { branch_tags := [("edge", [("v", ["v8.4.0"]), ("ot3@", [])])]
    overall_tags := [("v", some "v8.4.0"), ("ot3@", none)] }

/-- Outcomes for the C6 witness: buildroot's task raises, opentrons'
succeeds. -/
def c6_outcome : AutoGo.RepoSpec → Except String AutoGo.RepoState :=
  fun r => if r.name == "buildroot" then Except.error "fetch failed" else Except.ok c6_state

/-- C6 witness: in a concrete two-repository run where buildroot fails,
buildroot is recorded as failed and excluded from the result map and all
downstream rows, while opentrons stays recorded. -/
theorem C6_witness :
    "buildroot" ∈ AutoGo.failed_repos [buildroot_spec, opentrons_spec] c6_outcome ∧
    alistFind (AutoGo.collect_results [buildroot_spec, opentrons_spec] c6_outcome)
      "buildroot" = none ∧
    (∀ row ∈ AutoGo.summary_rows [buildroot_spec, opentrons_spec]
        (AutoGo.collect_results [buildroot_spec, opentrons_spec] c6_outcome)
        "v8.4.1" AutoGo.Channel.external, row.repo ≠ "buildroot") ∧
    (∀ row ∈ AutoGo.compare_rows [buildroot_spec, opentrons_spec]
        (AutoGo.collect_results [buildroot_spec, opentrons_spec] c6_outcome)
        "v8.4.1" AutoGo.Channel.external, row.1 ≠ "buildroot") ∧
    (∀ c ∈ AutoGo.changes_calls [buildroot_spec, opentrons_spec]
        (AutoGo.collect_results [buildroot_spec, opentrons_spec] c6_outcome)
        "v8.4.1" AutoGo.Channel.external, c.1 ≠ "buildroot") ∧
    (∀ r1 ∈ [buildroot_spec, opentrons_spec], ∀ st,
      c6_outcome r1 = Except.ok st →
      alistFind (AutoGo.collect_results [buildroot_spec, opentrons_spec] c6_outcome)
        r1.name = some st) :=
  C6_failure_isolated [buildroot_spec, opentrons_spec] c6_outcome buildroot_spec
    "fetch failed" "v8.4.1" AutoGo.Channel.external (by decide) rfl (by decide)

-- ------------------------------------------------------------------------
-- C8
-- ------------------------------------------------------------------------

/-- On versions without prerelease, the semver order is plain
lexicographic order of the numeric triple. -/
theorem le_iff_noPre (a b : SemVer) (ha : a.prerelease = none)
    (hb : b.prerelease = none) :
    SemVer.le a b = true ↔
      (a.major < b.major ∨ (a.major = b.major ∧ (a.minor < b.minor ∨
        (a.minor = b.minor ∧ a.patch ≤ b.patch)))) := by
  unfold SemVer.le
  rw [ha, hb]
  split_ifs <;> simp_all [preLe] <;> omega

/-- The semver order is total on versions without prerelease. -/
theorem le_total_noPre (a b : SemVer) (ha : a.prerelease = none)
    (hb : b.prerelease = none) :
    SemVer.le a b = true ∨ SemVer.le b a = true := by
  rw [le_iff_noPre a b ha hb, le_iff_noPre b a hb ha]
  omega

/-- The semver order is transitive on versions without prerelease. -/
theorem le_trans_noPre (a b c : SemVer) (ha : a.prerelease = none)
    (hb : b.prerelease = none) (hc : c.prerelease = none)
    (h1 : SemVer.le a b = true) (h2 : SemVer.le b c = true) :
    SemVer.le a c = true := by
  rw [le_iff_noPre a b ha hb] at h1
  rw [le_iff_noPre b c hb hc] at h2
  rw [le_iff_noPre a c ha hc]
  omega

/-- The max-tracking fold behind `pickLatest` returns an element of the
list that every element is semver-below (for prerelease-free keys). -/
theorem foldl_pick_max (xs : List (String × SemVer)) (x : String × SemVer)
    (hx : x.2.prerelease = none) (hxs : ∀ p ∈ xs, p.2.prerelease = none) :
    (xs.foldl (fun best c => if SemVer.le best.2 c.2 then c else best) x) ∈ x :: xs ∧
    SemVer.le x.2
      (xs.foldl (fun best c => if SemVer.le best.2 c.2 then c else best) x).2 = true ∧
    ∀ p ∈ xs, SemVer.le p.2
      (xs.foldl (fun best c => if SemVer.le best.2 c.2 then c else best) x).2 = true := by
  induction xs generalizing x with
  | nil =>
    refine ⟨List.mem_cons_self _ _, ?_, by simp⟩
    simp only [List.foldl_nil]
    rw [le_iff_noPre x.2 x.2 hx hx]
    omega
  | cons c cs ih =>
    have hc : c.2.prerelease = none := hxs c (List.mem_cons_self c cs)
    have hcs : ∀ p ∈ cs, p.2.prerelease = none :=
      fun p hp => hxs p (List.mem_cons_of_mem c hp)
    simp only [List.foldl_cons]
    by_cases h : SemVer.le x.2 c.2 = true
    · rw [if_pos h]
      obtain ⟨hmem, hle, hall⟩ := ih c hc hcs
      have hres : (cs.foldl (fun best d =>
          if SemVer.le best.2 d.2 then d else best) c).2.prerelease = none := by
        rcases List.mem_cons.mp hmem with h1 | h2
        · rw [h1]; exact hc
        · exact hcs _ h2
      refine ⟨List.mem_cons_of_mem x hmem, le_trans_noPre _ _ _ hx hc hres h hle, ?_⟩
      intro p hp
      rcases List.mem_cons.mp hp with h1 | h2
      · rw [h1]; exact hle
      · exact hall p h2
    · have hcx : SemVer.le c.2 x.2 = true :=
        (le_total_noPre x.2 c.2 hx hc).resolve_left h
      rw [if_neg h]
      obtain ⟨hmem, hle, hall⟩ := ih x hx hcs
      have hres : (cs.foldl (fun best d =>
          if SemVer.le best.2 d.2 then d else best) x).2.prerelease = none := by
        rcases List.mem_cons.mp hmem with h1 | h2
        · rw [h1]; exact hx
        · exact hcs _ h2
      refine ⟨?_, hle, ?_⟩
      · rcases List.mem_cons.mp hmem with h1 | h2
        · rw [h1]; exact List.mem_cons_self x (c :: cs)
        · exact List.mem_cons_of_mem x (List.mem_cons_of_mem c h2)
      · intro p hp
        rcases List.mem_cons.mp hp with h1 | h2
        · rw [h1]; exact le_trans_noPre _ _ _ hc hx hres hcx hle
        · exact hall p h2

/-- Applying `pickLatest` to a nonempty prerelease-free keyed list gives the name of
an element whose key dominates every key in the list. -/
theorem pickLatest_spec (keyed : List (String × SemVer)) (hne : keyed ≠ [])
    (hpre : ∀ p ∈ keyed, p.2.prerelease = none) :
    ∃ p ∈ keyed, SeqGo.pickLatest keyed = p.1 ∧
      ∀ q ∈ keyed, SemVer.le q.2 p.2 = true := by
  cases keyed with
  | nil => exact absurd rfl hne
  | cons x xs =>
    obtain ⟨hmem, hle, hall⟩ := foldl_pick_max xs x
      (hpre x (List.mem_cons_self x xs))
      (fun p hp => hpre p (List.mem_cons_of_mem x hp))
    refine ⟨_, hmem, rfl, ?_⟩
    intro q hq
    rcases List.mem_cons.mp hq with h1 | h2
    · rw [h1]; exact hle
    · exact hall q h2

/-- When every candidate suffix parses, the decorate step succeeds and
produces the keys in order. -/
theorem keyedList_ok (l : List String)
    (h : ∀ b ∈ l, ∃ v, parseVersion (SeqGo.chore_suffix b) = some v ∧
      v.prerelease = none) :
    ∃ ks, SeqGo.keyedList l = Except.ok ks ∧
      ks.map Prod.fst = l ∧
      (∀ p ∈ ks, parseVersion (SeqGo.chore_suffix p.1) = some p.2) ∧
      (∀ p ∈ ks, p.2.prerelease = none) := by
  induction l with
  | nil => exact ⟨[], rfl, rfl, by simp, by simp⟩
  | cons b rest ih =>
    obtain ⟨v, hv, hvpre⟩ := h b (List.mem_cons_self b rest)
    obtain ⟨ks, hks, hmap, hparse, hpre⟩ :=
      ih (fun x hx => h x (List.mem_cons_of_mem b hx))
    refine ⟨(b, v) :: ks, ?_, by simp [hmap], ?_, ?_⟩
    · unfold SeqGo.keyedList SeqGo.parseKeyed
      simp only [hv, hks]
    · intro p hp
      rcases List.mem_cons.mp hp with h1 | h2
      · rw [h1]; exact hv
      · exact hparse p h2
    · intro p hp
      rcases List.mem_cons.mp hp with h1 | h2
      · rw [h1]; exact hvpre
      · exact hpre p h2

/-- C8 counterexample: the branch `chore_release-8.4` has a suffix outside
the `major.minor.patch` grammar, yet it passes the digits-and-dots filter,
and the semver parse of `8.4` then raises — the scan fails instead of
excluding the branch. -/
theorem C8_counterexample :
    SeqGo.get_latest_chore_release_branch
      ["9f2c\trefs/heads/chore_release-8.4"] = Except.error "8.4" := rfl

/-- C8 amended: a branch whose suffix contains anything but digits and
dots is excluded from the ordering without failing; provided every suffix
that survives the numeric filter parses as a plain `major.minor.patch`
version, the scan returns the branch with the numerically greatest
version, or the empty string when no candidate remains. -/
theorem C8_latest_branch (ls : List String)
    (h : ∀ b ∈ SeqGo.numeric_chore_branches ls,
      ∃ v, parseVersion (SeqGo.chore_suffix b) = some v ∧ v.prerelease = none) :
    ∃ r, SeqGo.get_latest_chore_release_branch ls = Except.ok r ∧
      ((SeqGo.numeric_chore_branches ls = [] ∧ r = "") ∨
       (r ∈ SeqGo.numeric_chore_branches ls ∧
        ∃ vr, parseVersion (SeqGo.chore_suffix r) = some vr ∧
          ∀ b ∈ SeqGo.numeric_chore_branches ls, ∀ vb,
            parseVersion (SeqGo.chore_suffix b) = some vb →
            SemVer.le vb vr = true)) := by
  by_cases hemp : (SeqGo.numeric_chore_branches ls).isEmpty = true
  · refine ⟨"", ?_, Or.inl ⟨List.isEmpty_iff.mp hemp, rfl⟩⟩
    unfold SeqGo.get_latest_chore_release_branch
    rw [if_pos hemp]
  · obtain ⟨ks, hks, hmap, hparse, hpre⟩ :=
      keyedList_ok (SeqGo.numeric_chore_branches ls) h
    have hkne : ks ≠ [] := by
      intro h0
      rw [h0] at hmap
      rw [List.isEmpty_iff] at hemp
      exact hemp hmap.symm
    obtain ⟨p, hpmem, hpick, hmax⟩ := pickLatest_spec ks hkne hpre
    refine ⟨p.1, ?_, Or.inr ⟨?_, p.2, hparse p hpmem, ?_⟩⟩
    · unfold SeqGo.get_latest_chore_release_branch
      rw [if_neg hemp]
      simp only [hks]
      rw [hpick]
    · rw [← hmap]
      exact List.mem_map_of_mem Prod.fst hpmem
    · intro b hb vb hvb
      rw [← hmap] at hb
      obtain ⟨q, hq, hq1⟩ := List.mem_map.mp hb
      have hqp := hparse q hq
      rw [hq1, hvb] at hqp
      injection hqp with h3
      rw [h3]
      exact hmax q hq

/-- The ls-remote lines of the C8 witness: two well-formed candidates and
one branch whose suffix is not numeric. -/
def c8_ls : List String :=
  ["9f2c\trefs/heads/chore_release-8.4.1",
   "77aa\trefs/heads/chore_release-8.10.0",
   "31bb\trefs/heads/chore_release-edge"]

/-- C8 amended witness: the non-numeric branch is excluded without
failure, and the numerically greatest remaining branch is selected
(`8.10.0` beats `8.4.1` numerically although it is lexicographically
smaller). -/
theorem C8_witness :
    ∃ r, SeqGo.get_latest_chore_release_branch c8_ls = Except.ok r ∧
      ((SeqGo.numeric_chore_branches c8_ls = [] ∧ r = "") ∨
       (r ∈ SeqGo.numeric_chore_branches c8_ls ∧
        ∃ vr, parseVersion (SeqGo.chore_suffix r) = some vr ∧
          ∀ b ∈ SeqGo.numeric_chore_branches c8_ls, ∀ vb,
            parseVersion (SeqGo.chore_suffix b) = some vb →
            SemVer.le vb vr = true)) :=
  C8_latest_branch c8_ls (by
    intro b hb
    have he : SeqGo.numeric_chore_branches c8_ls =
        ["chore_release-8.4.1", "chore_release-8.10.0"] := rfl
    rw [he] at hb
    simp only [List.mem_cons, List.not_mem_nil, or_false] at hb
    rcases hb with h1 | h1 <;> subst h1
    · exact ⟨⟨8, 4, 1, none, none⟩, by decide, rfl⟩
    · exact ⟨⟨8, 10, 0, none, none⟩, by decide, rfl⟩)

-- ------------------------------------------------------------------------
-- C10
-- ------------------------------------------------------------------------

/-- Soundness of the buckets: every release in `alphas` (resp. `betas`,
`stables`) has a version whose prerelease's first dot component is
`alpha` (resp. `beta`, resp. no prerelease at all). -/
theorem from_production_sound (prod : List (String × Release.ProdInfo))
    (coll : Release.RobotReleasesCollection)
    (hok : Release.from_production prod = Except.ok coll) :
    (∀ r ∈ coll.alphas, ∃ v p, parseVersion r.version = some v ∧
      v.prerelease = some p ∧ Release.preTag p = "alpha") ∧
    (∀ r ∈ coll.betas, ∃ v p, parseVersion r.version = some v ∧
      v.prerelease = some p ∧ Release.preTag p = "beta") ∧
    (∀ r ∈ coll.stables, ∃ v, parseVersion r.version = some v ∧
      v.prerelease = none) := by
  induction prod generalizing coll with
  | nil =>
    injection hok with h
    rw [← h]
    exact ⟨by simp, by simp, by simp⟩
  | cons hd rest ih =>
    obtain ⟨ver, info⟩ := hd
    unfold Release.from_production at hok
    cases hp : parseVersion ver with
    | none =>
      simp only [hp] at hok
      exact Except.noConfusion hok
    | some vi =>
      simp only [hp] at hok
      cases hrest : Release.from_production rest with
      | error e =>
        simp only [hrest] at hok
        exact Except.noConfusion hok
      | ok coll1 =>
        simp only [hrest] at hok
        obtain ⟨ha1, hb1, hs1⟩ := ih coll1 hrest
        cases hpre : vi.prerelease with
        | some p =>
          simp only [hpre] at hok
          by_cases halpha : (Release.preTag p == "alpha") = true
          · rw [if_pos halpha] at hok
            injection hok with h
            rw [← h]
            refine ⟨?_, hb1, hs1⟩
            intro r hr
            rcases List.mem_cons.mp hr with h1 | h2
            · refine ⟨vi, p, ?_, hpre, by simpa using halpha⟩
              rw [h1]
              exact hp
            · exact ha1 r h2
          · rw [if_neg halpha] at hok
            by_cases hbeta : (Release.preTag p == "beta") = true
            · rw [if_pos hbeta] at hok
              injection hok with h
              rw [← h]
              refine ⟨ha1, ?_, hs1⟩
              intro r hr
              rcases List.mem_cons.mp hr with h1 | h2
              · refine ⟨vi, p, ?_, hpre, by simpa using hbeta⟩
                rw [h1]
                exact hp
              · exact hb1 r h2
            · rw [if_neg hbeta] at hok
              injection hok with h
              rw [← h]
              exact ⟨ha1, hb1, hs1⟩
        | none =>
          simp only [hpre] at hok
          injection hok with h
          rw [← h]
          refine ⟨ha1, hb1, ?_⟩
          intro r hr
          rcases List.mem_cons.mp hr with h1 | h2
          · refine ⟨vi, ?_, hpre⟩
            rw [h1]
            exact hp
          · exact hs1 r h2

/-- Completeness for stables: an entry whose version parses with no
prerelease lands in the stables bucket. -/
theorem from_production_stable_mem (prod : List (String × Release.ProdInfo))
    (coll : Release.RobotReleasesCollection)
    (hok : Release.from_production prod = Except.ok coll)
    (ver : String) (info : Release.ProdInfo) (hmem : (ver, info) ∈ prod)
    (v : SemVer) (hv : parseVersion ver = some v) (hnone : v.prerelease = none) :
    Release.mkRelease ver info ∈ coll.stables := by
  induction prod generalizing coll with
  | nil => cases hmem
  | cons hd rest ih =>
    obtain ⟨ver1, info1⟩ := hd
    unfold Release.from_production at hok
    cases hp : parseVersion ver1 with
    | none =>
      simp only [hp] at hok
      exact Except.noConfusion hok
    | some vi =>
      simp only [hp] at hok
      cases hrest : Release.from_production rest with
      | error e =>
        simp only [hrest] at hok
        exact Except.noConfusion hok
      | ok coll1 =>
        simp only [hrest] at hok
        rcases List.mem_cons.mp hmem with h1 | h2
        · obtain ⟨hv1, hi1⟩ := Prod.mk.injEq .. ▸ h1
          subst hv1
          subst hi1
          rw [hv] at hp
          injection hp with hvi
          cases hpre : vi.prerelease with
          | some p =>
            rw [← hvi] at hpre
            rw [hnone] at hpre
            cases hpre
          | none =>
            simp only [hpre] at hok
            injection hok with h
            rw [← h]
            exact List.mem_cons_self _ _
        · have hrec := ih coll1 hrest h2
          cases hpre : vi.prerelease with
          | some p =>
            simp only [hpre] at hok
            by_cases halpha : (Release.preTag p == "alpha") = true
            · rw [if_pos halpha] at hok
              injection hok with h
              rw [← h]
              exact hrec
            · rw [if_neg halpha] at hok
              by_cases hbeta : (Release.preTag p == "beta") = true
              · rw [if_pos hbeta] at hok
                injection hok with h
                rw [← h]
                exact hrec
              · rw [if_neg hbeta] at hok
                injection hok with h
                rw [← h]
                exact hrec
          | none =>
            simp only [hpre] at hok
            injection hok with h
            rw [← h]
            exact List.mem_cons_of_mem _ hrec

/-- C10: in `from_production`, an entry whose parsed version has a
prerelease whose first dot component is neither `alpha` nor `beta` lands
in none of the three buckets (no bucket holds any release of that
version), and an entry with no prerelease lands in `stables`. -/
theorem C10_bucket_visibility (prod : List (String × Release.ProdInfo))
    (coll : Release.RobotReleasesCollection)
    (hok : Release.from_production prod = Except.ok coll)
    (ver : String) (info : Release.ProdInfo) (hmem : (ver, info) ∈ prod)
    (v : SemVer) (hv : parseVersion ver = some v) :
    (v.prerelease = none → Release.mkRelease ver info ∈ coll.stables) ∧
    (∀ p, v.prerelease = some p →
      Release.preTag p ≠ "alpha" → Release.preTag p ≠ "beta" →
      (∀ r ∈ coll.alphas, r.version ≠ ver) ∧
      (∀ r ∈ coll.betas, r.version ≠ ver) ∧
      (∀ r ∈ coll.stables, r.version ≠ ver)) := by
  constructor
  · intro hnone
    exact from_production_stable_mem prod coll hok ver info hmem v hv hnone
  · intro p hp hna hnb
    obtain ⟨ha, hb, hs⟩ := from_production_sound prod coll hok
    refine ⟨?_, ?_, ?_⟩
    · intro r hr heq
      obtain ⟨v1, p1, hv1, hp1, htag⟩ := ha r hr
      rw [heq, hv] at hv1
      injection hv1 with h3
      rw [← h3, hp] at hp1
      injection hp1 with h4
      rw [← h4] at htag
      exact hna htag
    · intro r hr heq
      obtain ⟨v1, p1, hv1, hp1, htag⟩ := hb r hr
      rw [heq, hv] at hv1
      injection hv1 with h3
      rw [← h3, hp] at hp1
      injection hp1 with h4
      rw [← h4] at htag
      exact hnb htag
    · intro r hr heq
      obtain ⟨v1, hv1, hp1⟩ := hs r hr
      rw [heq, hv] at hv1
      injection hv1 with h3
      rw [← h3, hp] at hp1
      cases hp1

/-- Production-manifest info for the stable entry of the C10 witness. -/
def c10_i1 : Release.ProdInfo :=
  ⟨"img-2.0.0", "OT-3", "https://builds/2.0.0.json", "stable notes"⟩

/-- Production-manifest info for the `rc` entry of the C10 witness. -/
def c10_i2 : Release.ProdInfo :=
  ⟨"img-1.2.3-rc.1", "OT-3", "https://builds/1.2.3-rc.1.json", "rc notes"⟩

/-- Production-manifest info for the alpha entry of the C10 witness. -/
def c10_i3 : Release.ProdInfo :=
  ⟨"img-1.3.0-alpha.2", "OT-3", "https://builds/1.3.0-alpha.2.json", "alpha notes"⟩

/-- The production mapping of the C10 witness: a stable release, an `rc`
prerelease (neither alpha nor beta), and an alpha prerelease. -/
def c10_prod : List (String × Release.ProdInfo) :=
  [("2.0.0", c10_i1), ("1.2.3-rc.1", c10_i2), ("1.3.0-alpha.2", c10_i3)]

/-- The collection `from_production` builds for the C10 witness. -/
def c10_coll : Release.RobotReleasesCollection :=
  { alphas := [Release.mkRelease "1.3.0-alpha.2" c10_i3]
    betas := []
    stables := [Release.mkRelease "2.0.0" c10_i1] }

/-- C10 witness: the stable entry lands in stables, and the `rc.1` entry
is invisible — no bucket holds a release of its version. -/
theorem C10_witness :
    Release.from_production c10_prod = Except.ok c10_coll ∧
    Release.mkRelease "2.0.0" c10_i1 ∈ c10_coll.stables ∧
    ((∀ r ∈ c10_coll.alphas, r.version ≠ "1.2.3-rc.1") ∧
     (∀ r ∈ c10_coll.betas, r.version ≠ "1.2.3-rc.1") ∧
     (∀ r ∈ c10_coll.stables, r.version ≠ "1.2.3-rc.1")) :=
  ⟨rfl,
   (C10_bucket_visibility c10_prod c10_coll rfl "2.0.0" c10_i1 (by decide)
      ⟨2, 0, 0, none, none⟩ (by decide)).1 rfl,
   (C10_bucket_visibility c10_prod c10_coll rfl "1.2.3-rc.1" c10_i2 (by decide)
      ⟨1, 2, 3, some "rc.1", none⟩ (by decide)).2 "rc.1" rfl
      (by decide) (by decide)⟩
